import Mathlib

/-!
Shallow embedding of `chess.py` (a small chess rules engine) together with
theorems that settle the specification claims about it.

Conventions of the embedding:
* Python `int` is `Int`; a board coordinate pair `(file, rank)` is `Int × Int`.
* A Python `dict[Position, Piece]` is an insertion-ordered association list
  `List (Position × Piece)`; `dict.get` / `d[k] = v` / `d.pop(k)` are the
  functions `dictGet` / `dictSet` / `dictPop` below, where `dictPop` returns
  `none` when the key is absent (Python raises `KeyError` there).
* Code that can raise returns `Except PyError _`; the constructors of
  `PyError` name the four `InvalidMoveError` raise sites of the source by
  their messages, plus the two uncaught exception kinds the source can hit
  (`KeyError` from `dict.pop`, `AttributeError` from reading `.name` on a
  `Castle` record in the move history).
-/

set_option maxRecDepth 4000

namespace Chess

/-- `Position = tuple[int, int]` : a `(file, rank)` pair of Python ints. -/
abbrev Position := Int × Int

/-- `class Color(Enum)`. -/
inductive Color where
  | Black
  | White
deriving DecidableEq, Repr

/-- `Color.opponent`. -/
def Color.opponent : Color → Color
  | .White => .Black
  | .Black => .White

/-- The piece kinds; each concrete subclass of `Piece` in the source. -/
inductive PieceKind where
  | Pawn
  | Rook
  | Knight
  | Bishop
  | King
  | Queen
deriving DecidableEq, Repr

/-- The class attribute `name` of each piece subclass. -/
def PieceKind.name : PieceKind → String
  | .Pawn => "P"
  | .Rook => "R"
  | .Knight => "N"
  | .Bishop => "B"
  | .King => "K"
  | .Queen => "Q"

/-- A piece value.  `Piece.__eq__` compares `color` and `name` only, and `name`
determines the subclass, so structural equality of this structure matches the
source equality exactly. -/
structure Piece where
  kind : PieceKind
  color : Color
deriving DecidableEq, Repr

/-- `Pawn(color)` constructor. -/
def Pawn (c : Color) : Piece := ⟨.Pawn, c⟩

/-- `Rook(color)` constructor. -/
def Rook (c : Color) : Piece := ⟨.Rook, c⟩

/-- `Knight(color)` constructor. -/
def Knight (c : Color) : Piece := ⟨.Knight, c⟩

/-- `Bishop(color)` constructor. -/
def Bishop (c : Color) : Piece := ⟨.Bishop, c⟩

/-- `King(color)` constructor. -/
def King (c : Color) : Piece := ⟨.King, c⟩

/-- `Queen(color)` constructor. -/
def Queen (c : Color) : Piece := ⟨.Queen, c⟩

/-- `@dataclass Move`: a parsed standard move, `name` is the piece letter. -/
structure Move where
  name : String
  dest : Position
deriving DecidableEq, Repr

/-- An entry of `Board.moves`: the source appends either a `Move` or a
`Castle` dataclass value, so the history is heterogeneous. -/
inductive MoveIntent where
  | standard : Move → MoveIntent
  | castle : Bool → MoveIntent
deriving DecidableEq, Repr

/-- The raise sites of the source, by message, plus uncaught exceptions. -/
inductive PyError where
  /-- `InvalidMoveError` from `parse_move` (message `Invalid move: ...`). -/
  | badMoveText
  /-- `InvalidMoveError` with message `No matching piece found`. -/
  | noMatchingPiece
  /-- `InvalidMoveError` with message `Ambiguous move`. -/
  | ambiguousMove
  /-- `InvalidMoveError` raised by `castle` when `can_castle` is false. -/
  | cantCastle
  /-- `KeyError` from `dict.pop` on an absent key in `move_piece`. -/
  | keyError
  /-- `AttributeError` from `move.name` when a history entry is a `Castle`. -/
  | attributeError
deriving DecidableEq, Repr

/-- `d.get(k)` on a Python dict, as first-match lookup in the entry list. -/
def dictGet : List (Position × Piece) → Position → Option Piece
  | [], _ => none
  | (k, v) :: rest, p => if k = p then some v else dictGet rest p

/-- `d[k] = v` on a Python dict: replace the value in place when the key is
present (keeping its position in insertion order), otherwise append. -/
def dictSet : List (Position × Piece) → Position → Piece → List (Position × Piece)
  | [], k, v => [(k, v)]
  | (k0, v0) :: rest, k, v =>
    if k0 = k then (k, v) :: rest else (k0, v0) :: dictSet rest k v

/-- `d.pop(k)` on a Python dict: return the value and the remaining entries,
or `none` (Python: raise `KeyError`) when the key is absent. -/
def dictPop : List (Position × Piece) → Position → Option (Piece × List (Position × Piece))
  | [], _ => none
  | (k0, v0) :: rest, k =>
    if k0 = k then some (v0, rest)
    else
      match dictPop rest k with
      | none => none
      | some (v, rest2) => some (v, (k0, v0) :: rest2)

/-- `@dataclass Board` : piece mapping plus the move history. -/
structure Board where
  pieces : List (Position × Piece)
  moves : List (Color × MoveIntent)
deriving DecidableEq, Repr

/-- The default dict literal of `Board.__init__`, in source order.  Note the
entry at `(0, 6)`: the source really writes `Pawn(Color.Black)` there, inside
the otherwise-White block. -/
def initialPieces : List (Position × Piece) :=
  [ ((0, 0), Rook Color.Black)
  , ((1, 0), Knight Color.Black)
  , ((2, 0), Bishop Color.Black)
  , ((3, 0), Queen Color.Black)
  , ((4, 0), King Color.Black)
  , ((5, 0), Knight Color.Black)
  , ((6, 0), Bishop Color.Black)
  , ((7, 0), Rook Color.Black)
  , ((0, 1), Pawn Color.Black)
  , ((1, 1), Pawn Color.Black)
  , ((2, 1), Pawn Color.Black)
  , ((3, 1), Pawn Color.Black)
  , ((4, 1), Pawn Color.Black)
  , ((5, 1), Pawn Color.Black)
  , ((6, 1), Pawn Color.Black)
  , ((7, 1), Pawn Color.Black)
  , ((0, 6), Pawn Color.Black)
  , ((1, 6), Pawn Color.White)
  , ((2, 6), Pawn Color.White)
  , ((3, 6), Pawn Color.White)
  , ((4, 6), Pawn Color.White)
  , ((5, 6), Pawn Color.White)
  , ((6, 6), Pawn Color.White)
  , ((7, 6), Pawn Color.White)
  , ((0, 7), Rook Color.White)
  , ((1, 7), Knight Color.White)
  , ((2, 7), Bishop Color.White)
  , ((3, 7), Queen Color.White)
  , ((4, 7), King Color.White)
  , ((5, 7), Knight Color.White)
  , ((6, 7), Bishop Color.White)
  , ((7, 7), Rook Color.White)
  ]

/-- `Board.__init__(pieces=None, moves=None)`.  `moves or []` and
`pieces or {...}` fall back to the default when the argument is falsy, that
is `None` or empty. -/
def Board.init (pieces : Option (List (Position × Piece)))
    (moves : Option (List (Color × MoveIntent))) : Board :=
  { moves :=
      match moves with
      | none => []
      | some [] => []
      | some ms => ms
    pieces :=
      match pieces with
      | none => initialPieces
      | some [] => initialPieces
      | some ps => ps }

/-- `Board.get_piece_at`. -/
def Board.getPieceAt (b : Board) (position : Position) : Option Piece :=
  dictGet b.pieces position

/-- `Board.is_blocked`. -/
def Board.isBlocked (b : Board) (color : Color) (position : Position) : Bool :=
  match b.getPieceAt position with
  | some piece => piece.color = color
  | none => false

/-- `is_out_of_bounds`: true when either coordinate is outside `[0, 8)`. -/
def isOutOfBounds (position : Position) : Bool :=
  !(decide (0 ≤ position.1 ∧ position.1 < 8)) || !(decide (0 ≤ position.2 ∧ position.2 < 8))

/-- `straight_moves`: the four orthogonal direction lambdas, applied to the
ints of `range(8)`. -/
def straightMoves : List (Nat → Int × Int) :=
  [ fun i => ((i : Int), 0)
  , fun i => (-(i : Int), 0)
  , fun i => (0, (i : Int))
  , fun i => (0, -(i : Int)) ]

/-- `diagonal_moves`: the four diagonal direction lambdas. -/
def diagonalMoves : List (Nat → Int × Int) :=
  [ fun i => ((i : Int), (i : Int))
  , fun i => ((i : Int), -(i : Int))
  , fun i => (-(i : Int), (i : Int))
  , fun i => (-(i : Int), -(i : Int)) ]

/-- The inner loop of `filter_moves` for one direction lambda: walk
`map(df, range(8))`, skipping the origin and out-of-bounds squares, stopping
at the first occupied square (keeping it when it holds an opposing piece). -/
def rayLoop (position : Position) (color : Color) (board : Board)
    (df : Nat → Int × Int) : List Nat → List Position
  | [] => []
  | i :: rest =>
    let pos : Position := (position.1 + (df i).1, position.2 + (df i).2)
    if pos = position ∨ isOutOfBounds pos = true then
      rayLoop position color board df rest
    else
      match board.getPieceAt pos with
      | some piece => if piece.color ≠ color then [pos] else []
      | none => pos :: rayLoop position color board df rest

/-- `filter_moves`: concatenate the rays of every direction lambda. -/
def filterMoves (position : Position) (color : Color)
    (directionFns : List (Nat → Int × Int)) (board : Board) : List Position :=
  (directionFns.map (fun df => rayLoop position color board df (List.range 8))).flatten

/-- `Pawn.has_moved`: false for a Black pawn on rank 1, false for any pawn on
rank 6 (the second branch does not test the color), true otherwise. -/
def pawnHasMoved (color : Color) (position : Position) : Bool :=
  if color = .Black ∧ position.2 = 1 then false
  else if position.2 = 6 then false
  else true

/-- `Pawn.possible_moves`: one square forward when that square is free, plus
the two-square advance when additionally `has_moved` is false (the two-square
destination itself is never tested for occupancy), plus the two diagonal
squares when they hold an opposing piece. -/
def pawnMoves (color : Color) (position : Position) (board : Board) : List Position :=
  let direction : Int := if color = .Black then 1 else -1
  let x := position.1
  let y := position.2
  let forwardPart : List Position :=
    if board.getPieceAt (x, y + direction) = none then
      (x, y + direction) ::
        (if pawnHasMoved color position = false then [(x, y + direction * 2)] else [])
    else []
  let captureMoves : List Position := [(x + direction, y + direction), (x - direction, y + direction)]
  forwardPart ++ captureMoves.filter (fun m =>
    match board.getPieceAt m with
    | some piece => piece.color ≠ color
    | none => false)

/-- `Knight.possible_moves`: the eight fixed offsets, filtered to in-bounds
squares not blocked by a same-color piece. -/
def knightMoves (color : Color) (position : Position) (board : Board) : List Position :=
  let x := position.1
  let y := position.2
  let allMoves : List Position :=
    [ (x - 1, y - 2), (x + 1, y - 2), (x + 2, y - 1), (x + 2, y + 1)
    , (x + 1, y + 2), (x - 1, y + 2), (x - 2, y - 1), (x - 2, y + 1) ]
  allMoves.filter (fun m => !isOutOfBounds m && !board.isBlocked color m)

/-- `King.possible_moves`: each direction lambda at `1`, with the same
in-bounds and blocking filter as the knight. -/
def kingMoves (color : Color) (position : Position) (board : Board) : List Position :=
  ((straightMoves ++ diagonalMoves).map (fun fn =>
      ((position.1 + (fn 1).1, position.2 + (fn 1).2) : Position))).filter
    (fun m => !isOutOfBounds m && !board.isBlocked color m)

/-- `possible_moves` dispatched on the piece subclass. -/
def Piece.possibleMoves (piece : Piece) (position : Position) (board : Board) : List Position :=
  match piece.kind with
  | .Pawn => pawnMoves piece.color position board
  | .Rook => filterMoves position piece.color straightMoves board
  | .Knight => knightMoves piece.color position board
  | .Bishop => filterMoves position piece.color diagonalMoves board
  | .King => kingMoves piece.color position board
  | .Queen => filterMoves position piece.color (diagonalMoves ++ straightMoves) board

/-- `Board.is_attacked_by`: some piece of `color` has `position` in its
generated move set. -/
def Board.isAttackedBy (b : Board) (color : Color) (position : Position) : Bool :=
  b.pieces.any (fun kv =>
    if kv.2.color = color then decide (position ∈ kv.2.possibleMoves kv.1 b) else false)

/-- The sources `rank = 0 if color.Black else 7` (lines 124 and 159).  The
attribute access `color.Black` resolves to the enum member `Color.Black`
whatever `color` is, and enum members are truthy, so the condition always
holds and the computed rank is `0` for both colors; the `else 7` branch is
dead. -/
def castleRank (_color : Color) : Int :=
  if True then 0 else 7

/-- `free_files = [5, 6] if kingside else [1, 2, 3]`. -/
def freeFiles (kingside : Bool) : List Int :=
  if kingside then [5, 6] else [1, 2, 3]

/-- `not_attacked_files = [4, 5, 6, 7] if kingside else [0, 1, 2, 3, 4]`. -/
def notAttackedFiles (kingside : Bool) : List Int :=
  if kingside then [4, 5, 6, 7] else [0, 1, 2, 3, 4]

/-- `original_rook_position = (7 if kingside else 0, rank)`. -/
def originalRookPosition (kingside : Bool) (rank : Int) : Position :=
  (if kingside then 7 else 0, rank)

/-- The history loop of `can_castle`.  The loop variable shadows the `color`
parameter, so the filter `if color == color` compares the entry color with
itself and every entry is examined regardless of its color.  Reading
`move.name` on a `Castle` entry raises `AttributeError`.  The result is
`true` when some entry disqualifies castling (the loop returns `False`
early in the source). -/
def historyDisqualifies (moves : List (Color × MoveIntent)) (rookPosition : Position) :
    Except PyError Bool :=
  match moves with
  | [] => .ok false
  | (_, .castle _) :: _ => .error .attributeError
  | (_, .standard mv) :: rest =>
    if mv.name = "K" then .ok true
    else if mv.dest = rookPosition then .ok true
    else historyDisqualifies rest rookPosition

/-- `Board.can_castle`, with the checks in source order: the in-between files
must be empty, the king-path files must not be attacked by the opponent, the
original corner must hold a piece equal to `Rook(Color.Black)` (the color is
hardcoded in the source, line 139), and no history entry may disqualify. -/
def Board.canCastle (b : Board) (color : Color) (kingside : Bool) : Except PyError Bool :=
  let rank := castleRank color
  if (freeFiles kingside).any (fun file => b.getPieceAt (file, rank) ≠ none) then .ok false
  else if (notAttackedFiles kingside).any
      (fun file => b.isAttackedBy color.opponent (file, rank)) then .ok false
  else if b.getPieceAt (originalRookPosition kingside rank) ≠ some (Rook Color.Black) then .ok false
  else
    match historyDisqualifies b.moves (originalRookPosition kingside rank) with
    | .error e => .error e
    | .ok true => .ok false
    | .ok false => .ok true

/-- `Board.move_piece` as a call: the first component is the state of the
`pieces` argument when the call returns.  The body copies the argument
(`dict(pieces)`) before popping and inserting, so the argument is returned
unchanged; the second component is the new dictionary, or `none` when
`pop(src)` raises `KeyError`. -/
def Board.movePieceCall (pieces : List (Position × Piece)) (src dest : Position) :
    List (Position × Piece) × Option (List (Position × Piece)) :=
  ( pieces
  , match dictPop pieces src with
    | none => none
    | some (v, rest) => some (dictSet rest dest v) )

/-- `Board.move_piece` (result only). -/
def Board.movePiece (pieces : List (Position × Piece)) (src dest : Position) :
    Option (List (Position × Piece)) :=
  (Board.movePieceCall pieces src dest).2

/-- `Board.castle` as a call on the receiver: the first component is the state
of the receiver when the call returns (normally or by raising), rebuilt from
the states of `self.pieces` and `self.moves`, which the body never assigns;
the second component is the returned board or the raised error. -/
def Board.castleCall (b : Board) (color : Color) (kingside : Bool) :
    Board × Except PyError Board :=
  match b.canCastle color kingside with
  | .error e => (⟨b.pieces, b.moves⟩, .error e)
  | .ok false => (⟨b.pieces, b.moves⟩, .error .cantCastle)
  | .ok true =>
    match (Board.movePieceCall b.pieces (4, castleRank color)
        (if kingside then 6 else 2, castleRank color)).2 with
    | none =>
      (⟨(Board.movePieceCall b.pieces (4, castleRank color)
          (if kingside then 6 else 2, castleRank color)).1, b.moves⟩, .error .keyError)
    | some pieces1 =>
      match (Board.movePieceCall pieces1 (originalRookPosition kingside (castleRank color))
          (if kingside then 5 else 3, castleRank color)).2 with
      | none =>
        (⟨(Board.movePieceCall b.pieces (4, castleRank color)
            (if kingside then 6 else 2, castleRank color)).1, b.moves⟩, .error .keyError)
      | some pieces2 =>
        (⟨(Board.movePieceCall b.pieces (4, castleRank color)
            (if kingside then 6 else 2, castleRank color)).1, b.moves⟩,
         .ok ⟨pieces2, b.moves ++ [(color, .castle kingside)]⟩)

/-- `Board.castle` (result only). -/
def Board.castle (b : Board) (color : Color) (kingside : Bool) : Except PyError Board :=
  (b.castleCall color kingside).2

/-- `piece = "Q|R|N|B|K"`, the piece letters of the move grammar. -/
def pieceLetters : List Char := ['Q', 'R', 'N', 'B', 'K']

/-- The string named `ranks` in `parse_move` (`"abcdefgh"`): the file letters,
indexed in order. -/
def rankLetters : List Char := ['a', 'b', 'c', 'd', 'e', 'f', 'g', 'h']

/-- The string named `files` in `parse_move` (`"87654321"`): the rank digits,
indexed in reverse order. -/
def fileDigits : List Char := ['8', '7', '6', '5', '4', '3', '2', '1']

/-- `str.index` for a character known to occur: index of the first
occurrence (the junk value on an absent character is never reached in
`parse_move`, because the regex match guarantees membership). -/
def charIndex : List Char → Char → Nat
  | [], _ => 0
  | c :: rest, d => if c = d then 0 else charIndex rest d + 1

/-- The `([a-h])([1-8])` tail of the regex against a prefix of the input. -/
def matchFileDigit : List Char → Option (Char × Char)
  | f :: d :: _ => if f ∈ rankLetters ∧ d ∈ fileDigits then some (f, d) else none
  | _ => none

/-- The `x?([a-h])([1-8])` tail of the regex against a prefix of the input.
When the first character is `x` but no file-digit pair follows, the regex
engine would retry with the optional `x` unconsumed; that retry always fails
because `x` is not a file letter, so committing to the consumed `x` is
faithful. -/
def matchTail (cs : List Char) : Option (Char × Char) :=
  match cs with
  | c :: rest => if c = 'x' then matchFileDigit rest else matchFileDigit (c :: rest)
  | [] => none

/-- `parse_move`.  The castle forms are compared against the whole string;
otherwise `re.match` anchors the pattern `(Q|R|N|B|K?)x?([a-h])([1-8])` at
the start only, so trailing characters after a matching prefix are ignored.
A leading piece letter is consumed when present (the `K?` alternative matches
the empty string otherwise); a consumed piece letter never needs to be given
back on failure, because the rest of the pattern can then only fail on a
character that is not in `a-h`, and piece letters are not in `a-h` either. -/
def parseMoveAux (cs : List Char) : Except PyError MoveIntent :=
  match cs with
  | [] => .error .badMoveText
  | c :: rest =>
    if c ∈ pieceLetters then
      match matchTail rest with
      | some (f, d) =>
        .ok (.standard ⟨String.mk [c],
          ((charIndex rankLetters f : Int), (charIndex fileDigits d : Int))⟩)
      | none => .error .badMoveText
    else
      match matchTail (c :: rest) with
      | some (f, d) =>
        .ok (.standard ⟨"P",
          ((charIndex rankLetters f : Int), (charIndex fileDigits d : Int))⟩)
      | none => .error .badMoveText

/-- See the comment above `parseMoveAux`; this is the `parse_move` entry
point on the input string. -/
def parseMove (s : String) : Except PyError MoveIntent :=
  if s = "0-0" ∨ s = "0-0-0" then .ok (.castle (s == "0-0"))
  else parseMoveAux s.data

/-- `Board.move` as a call on the receiver, in the same style as
`Board.castleCall`: parse, delegate castles, otherwise collect the positions
of same-color, same-name pieces whose generated moves contain the
destination, and relocate when the candidate is unique. -/
def Board.moveCall (b : Board) (color : Color) (moveText : String) :
    Board × Except PyError Board :=
  match parseMove moveText with
  | .error e => (⟨b.pieces, b.moves⟩, .error e)
  | .ok (.castle kingside) => b.castleCall color kingside
  | .ok (.standard m) =>
    match b.pieces.filterMap (fun kv =>
        if kv.2.color = color ∧ kv.2.kind.name = m.name ∧ m.dest ∈ kv.2.possibleMoves kv.1 b
        then some kv.1 else none) with
    | [] => (⟨b.pieces, b.moves⟩, .error .noMatchingPiece)
    | [pos] =>
      match (Board.movePieceCall b.pieces pos m.dest).2 with
      | none => (⟨(Board.movePieceCall b.pieces pos m.dest).1, b.moves⟩, .error .keyError)
      | some pieces =>
        (⟨(Board.movePieceCall b.pieces pos m.dest).1, b.moves⟩,
         .ok ⟨pieces, b.moves ++ [(color, .standard m)]⟩)
    | _ :: _ :: _ => (⟨b.pieces, b.moves⟩, .error .ambiguousMove)

/-- `Board.move` (result only). -/
def Board.move (b : Board) (color : Color) (moveText : String) : Except PyError Board :=
  (b.moveCall color moveText).2

/-! ### Boards used in the claim theorems -/

/-- White king and rook on their real home squares of rank 7, nothing else. -/
def whiteHomeBoard : Board :=
  ⟨[((4, 7), King Color.White), ((7, 7), Rook Color.White)], []⟩

/-- White king and rook on rank 7 and additionally a White rook on `(7, 0)`,
the square `can_castle` actually inspects for the original rook. -/
def whiteRookOnCornerBoard : Board :=
  ⟨[((4, 7), King Color.White), ((7, 7), Rook Color.White), ((7, 0), Rook Color.White)], []⟩

/-- Black king and kingside rook at home, empty history. -/
def blackCastleBoard : Board :=
  ⟨[((4, 0), King Color.Black), ((7, 0), Rook Color.Black)], []⟩

/-- The same pieces, but the history records a White pawn move whose
destination is the kingside rook corner `(7, 0)`. -/
def blackCastleBoardWhiteHistory : Board :=
  ⟨[((4, 0), King Color.Black), ((7, 0), Rook Color.Black)],
   [(Color.White, .standard ⟨"P", (7, 0)⟩)]⟩

/-- Black pawn on its starting square `(3, 1)` with a White pawn occupying
the two-square destination `(3, 3)`; the square in between is empty. -/
def pawnDestinationOccupiedBoard : Board :=
  ⟨[((3, 1), Pawn Color.Black), ((3, 3), Pawn Color.White)], []⟩

/-- The castling board of §8 of the spec (and of `test_castling`): Black king
at `(4, 0)`, Black rooks at `(0, 0)` and `(7, 0)`, nothing else. -/
def castlingExampleBoard : Board :=
  ⟨[((0, 0), Rook Color.Black), ((4, 0), King Color.Black), ((7, 0), Rook Color.Black)], []⟩

/-- A lone Black rook on the kingside corner; no king anywhere. -/
def kinglessBoard : Board :=
  ⟨[((7, 0), Rook Color.Black)], []⟩

/-- A lone Black rook, used to instantiate the bounds theorem. -/
def loneRookBoard : Board :=
  ⟨[((0, 0), Rook Color.Black)], []⟩

/-- The pawn advance direction (`Pawn.possible_moves` line 203): Black moves
toward increasing rank, White toward decreasing rank. -/
def pawnDirection (color : Color) : Int :=
  if color = .Black then 1 else -1

/-- The pawn starting rank, as `Pawn.has_moved` recognises it for a pawn of
the given color: rank 1 for Black, rank 6 for White. -/
def pawnStartRank (color : Color) : Int :=
  if color = .Black then 1 else 6

/-- A character-list prefix matching the standard-move grammar: an optional
piece letter, an optional capture marker `x`, a file letter, a rank digit,
then arbitrary remaining characters. -/
def grammarString (piece : Option Char) (capture : Bool) (f d : Char)
    (rest : List Char) : List Char :=
  piece.toList ++ (if capture then ['x'] else []) ++ f :: d :: rest

/-! ### Claim theorems -/

/-- Claim C1 (code bug).  The castling reference rank is `0` for White as
well, not `7`: the source condition `color.Black` is the truthy enum member
for either color.  Consequently `canCastle(White, kingside)` inspects rank 0
and returns false even on a board where White king and rook stand untouched
on rank 7 with rank 7 empty in between and unattacked, where the claimed
rank-7 checks would all pass. -/
theorem c1_white_castle_uses_rank_zero :
    castleRank Color.White = 0 ∧
      whiteHomeBoard.canCastle Color.White true = .ok false :=
  ⟨rfl, rfl⟩

/-- Claim C2 (code bug).  The default board holds a Black pawn at `(0, 6)`,
inside the rank the claim says holds eight White pawns; its neighbour
`(1, 6)` is a White pawn as claimed. -/
theorem c2_default_board_pawn_colors :
    (Board.init none none).getPieceAt (0, 6) = some (Pawn Color.Black) ∧
      (Board.init none none).getPieceAt (1, 6) = some (Pawn Color.White) :=
  ⟨rfl, rfl⟩

/-- Claim C3 (code bug).  A White rook standing on the very corner square the
code inspects does not satisfy the original-rook check: the source compares
against `Rook(Color.Black)` for every castling color, so `canCastle` returns
false although the remaining conditions hold. -/
theorem c3_corner_check_wants_black_rook :
    whiteRookOnCornerBoard.getPieceAt
        (originalRookPosition true (castleRank Color.White)) = some (Rook Color.White) ∧
      whiteRookOnCornerBoard.canCastle Color.White true = .ok false :=
  ⟨rfl, rfl⟩

/-- Claim C4 (code bug).  A history entry recorded for White disqualifies
Black castling: with the same pieces, `canCastle(Black, kingside)` is true on
an empty history and false once the history holds a White move whose
destination is the rook corner, because the shadowed loop variable makes the
color filter vacuous. -/
theorem c4_opponent_move_disqualifies :
    blackCastleBoard.canCastle Color.Black true = .ok true ∧
      blackCastleBoardWhiteHistory.canCastle Color.Black true = .ok false :=
  ⟨rfl, rfl⟩

/-- Claim C5 (counterexample).  A Black pawn on its starting square generates
the two-square advance `(3, 3)` even though that destination square is
occupied — the source only tests the intermediate square — contradicting the
claimed equivalence with the destination being unoccupied. -/
theorem c5_two_square_with_occupied_destination :
    (3, 3) ∈ (Pawn Color.Black).possibleMoves (3, 1) pawnDestinationOccupiedBoard ∧
      pawnDestinationOccupiedBoard.getPieceAt (3, 3) ≠ none := by
  decide

/-- Claim C5 (amended, proved).  For a pawn of either color on its starting
rank, the two-squares-forward destination is generated if and only if the
intermediate one-square-forward square is unoccupied; the destination square
itself is never consulted. -/
theorem c5_double_step_iff_intermediate_free :
    ∀ (color : Color) (x : Int) (b : Board),
      (x, pawnStartRank color + 2 * pawnDirection color) ∈
          (Pawn color).possibleMoves (x, pawnStartRank color) b
        ↔ b.getPieceAt (x, pawnStartRank color + pawnDirection color) = none := by
  intro color x b
  cases color
  case Black =>
    have h3 : pawnStartRank Color.Black + 2 * pawnDirection Color.Black = 3 := by
      simp [pawnStartRank, pawnDirection]
    have h2 : pawnStartRank Color.Black + pawnDirection Color.Black = 2 := by
      simp [pawnStartRank, pawnDirection]
    rw [h3, h2]
    rcases h : b.getPieceAt (x, 2) with _ | p
    · simp [Piece.possibleMoves, Pawn, pawnMoves, pawnHasMoved, pawnStartRank, h]
    · simp [Piece.possibleMoves, Pawn, pawnMoves, pawnHasMoved, pawnStartRank, h]
  case White =>
    have h4 : pawnStartRank Color.White + 2 * pawnDirection Color.White = 4 := by
      simp [pawnStartRank, pawnDirection]
    have h5 : pawnStartRank Color.White + pawnDirection Color.White = 5 := by
      simp [pawnStartRank, pawnDirection]
    rw [h4, h5]
    rcases h : b.getPieceAt (x, 5) with _ | p
    · simp [Piece.possibleMoves, Pawn, pawnMoves, pawnHasMoved, pawnStartRank, h]
    · simp [Piece.possibleMoves, Pawn, pawnMoves, pawnHasMoved, pawnStartRank, h]

/-- Claim C6 (counterexample).  A White pawn on rank 0 generates the
off-board destination `(0, -1)`: `Pawn.possible_moves` never applies the
bounds filter. -/
theorem c6_pawn_moves_off_board :
    (0, -1) ∈ (Pawn Color.White).possibleMoves (0, 0) (Board.mk [] []) ∧
      isOutOfBounds (0, -1) = true := by
  decide

/-- Helper: every square kept by the ray loop of `filter_moves` passed its
guard, so it differs from the origin and is in bounds. -/
theorem rayLoop_mem {position : Position} {color : Color} {board : Board}
    {df : Nat → Int × Int} :
    ∀ (l : List Nat) (q : Position), q ∈ rayLoop position color board df l →
      q ≠ position ∧ isOutOfBounds q = false := by
  intro l
  induction l with
  | nil => intro q hq; simp [rayLoop] at hq
  | cons i rest ih =>
    intro q hq
    simp only [rayLoop] at hq
    split at hq
    · exact ih q hq
    · rename_i hcond
      push_neg at hcond
      split at hq
      · split at hq
        · rw [List.mem_singleton] at hq
          subst hq
          exact ⟨hcond.1, by simpa using hcond.2⟩
        · simp at hq
      · rcases List.mem_cons.mp hq with rfl | hmem
        · exact ⟨hcond.1, by simpa using hcond.2⟩
        · exact ih q hmem

/-- Helper: `filter_moves` output is in bounds and off the origin. -/
theorem filterMoves_mem {position : Position} {color : Color} {board : Board}
    {directionFns : List (Nat → Int × Int)} {q : Position}
    (hq : q ∈ filterMoves position color directionFns board) :
    q ≠ position ∧ isOutOfBounds q = false := by
  unfold filterMoves at hq
  rw [List.mem_flatten] at hq
  obtain ⟨l, hl, hql⟩ := hq
  rw [List.mem_map] at hl
  obtain ⟨df, -, rfl⟩ := hl
  exact rayLoop_mem _ q hql

/-- Helper: `Knight.possible_moves` output is in bounds and off the origin. -/
theorem knightMoves_mem {color : Color} {position q : Position} {board : Board}
    (hq : q ∈ knightMoves color position board) :
    q ≠ position ∧ isOutOfBounds q = false := by
  obtain ⟨px, py⟩ := position
  unfold knightMoves at hq
  rw [List.mem_filter] at hq
  obtain ⟨hmem, hpred⟩ := hq
  simp only [Bool.and_eq_true, Bool.not_eq_true'] at hpred
  refine ⟨?_, hpred.1⟩
  simp only [List.mem_cons, List.not_mem_nil, or_false] at hmem
  rcases hmem with rfl | rfl | rfl | rfl | rfl | rfl | rfl | rfl <;>
    · intro hcontra
      rw [Prod.mk.injEq] at hcontra
      omega

/-- Helper: `King.possible_moves` output is in bounds and off the origin. -/
theorem kingMoves_mem {color : Color} {position q : Position} {board : Board}
    (hq : q ∈ kingMoves color position board) :
    q ≠ position ∧ isOutOfBounds q = false := by
  obtain ⟨px, py⟩ := position
  unfold kingMoves at hq
  rw [List.mem_filter] at hq
  obtain ⟨hmem, hpred⟩ := hq
  simp only [Bool.and_eq_true, Bool.not_eq_true'] at hpred
  refine ⟨?_, hpred.1⟩
  simp only [straightMoves, diagonalMoves, List.cons_append, List.nil_append,
    List.map_cons, List.map_nil, List.mem_cons, List.not_mem_nil, or_false,
    Nat.cast_one] at hmem
  rcases hmem with rfl | rfl | rfl | rfl | rfl | rfl | rfl | rfl <;>
    · intro hcontra
      rw [Prod.mk.injEq] at hcontra
      omega

/-- Helper: every square generated by `Pawn.possible_moves` has its rank
displaced from the pawn rank by the advance direction, once or twice. -/
theorem pawnMoves_snd {color : Color} {position q : Position} {board : Board}
    (hq : q ∈ pawnMoves color position board) :
    q.2 = position.2 + pawnDirection color ∨
      q.2 = position.2 + pawnDirection color * 2 := by
  have hq' : q ∈ (if board.getPieceAt (position.1, position.2 + pawnDirection color) = none then
      (position.1, position.2 + pawnDirection color) ::
        (if pawnHasMoved color position = false then
          [(position.1, position.2 + pawnDirection color * 2)] else [])
      else []) ++
      (([((position.1 + pawnDirection color, position.2 + pawnDirection color) : Position),
        (position.1 - pawnDirection color, position.2 + pawnDirection color)]).filter (fun m =>
          match board.getPieceAt m with
          | some piece => decide (piece.color ≠ color)
          | none => false)) := hq
  rcases List.mem_append.mp hq' with h | h
  · split at h
    · rcases List.mem_cons.mp h with rfl | h2
      · left; rfl
      · split at h2
        · rw [List.mem_singleton] at h2
          subst h2
          right; rfl
        · simp at h2
    · simp at h
  · have h3 := (List.mem_filter.mp h).1
    rcases List.mem_cons.mp h3 with rfl | h4
    · left; rfl
    · rcases List.mem_cons.mp h4 with rfl | h5
      · left; rfl
      · simp at h5

/-- Helper: `Pawn.possible_moves` output is off the origin. -/
theorem pawnMoves_ne {color : Color} {position q : Position} {board : Board}
    (hq : q ∈ pawnMoves color position board) : q ≠ position := by
  have hsnd := pawnMoves_snd hq
  have hd : pawnDirection color = 1 ∨ pawnDirection color = -1 := by
    cases color <;> simp [pawnDirection]
  intro hcontra
  rw [hcontra] at hsnd
  rcases hd with hd | hd <;> rw [hd] at hsnd <;> omega

/-- Claim C6 (amended, proved).  Every generated destination differs from the
origin square; for every kind except Pawn it is also in bounds. -/
theorem c6_moves_in_bounds_except_pawn :
    ∀ (piece : Piece) (position q : Position) (b : Board),
      q ∈ piece.possibleMoves position b →
        q ≠ position ∧ (piece.kind ≠ .Pawn → isOutOfBounds q = false) := by
  intro piece position q b hq
  rcases piece with ⟨kind, color⟩
  cases kind
  case Pawn =>
    exact ⟨pawnMoves_ne hq, fun h => absurd rfl h⟩
  case Rook =>
    have h := filterMoves_mem hq
    exact ⟨h.1, fun _ => h.2⟩
  case Knight =>
    have h := knightMoves_mem hq
    exact ⟨h.1, fun _ => h.2⟩
  case Bishop =>
    have h := filterMoves_mem hq
    exact ⟨h.1, fun _ => h.2⟩
  case King =>
    have h := kingMoves_mem hq
    exact ⟨h.1, fun _ => h.2⟩
  case Queen =>
    have h := filterMoves_mem hq
    exact ⟨h.1, fun _ => h.2⟩

/-- Witness for the amended C6 theorem at a concrete input: the Black rook on
`(0, 0)` of `loneRookBoard` generates `(3, 0)`. -/
theorem c6_moves_in_bounds_except_pawn_witness :
    ((3, 0) : Position) ≠ ((0, 0) : Position) ∧
      (PieceKind.Rook ≠ PieceKind.Pawn → isOutOfBounds (3, 0) = false) :=
  c6_moves_in_bounds_except_pawn ⟨.Rook, .Black⟩ (0, 0) (3, 0) loneRookBoard (by decide)

/-- Claim C7 (code bug).  On the §8 castling board, `move(Black, "0-0")`
puts the king on `(6, 0)` and the rook on `(5, 0)` — leaving `(2, 0)` and
`(3, 0)` empty — and `move(Black, "0-0-0")` puts them on `(2, 0)` and
`(3, 0)`; the claim (and `test_chess.py::test_castling`) states the two
results the other way around. -/
theorem c7_castle_result_squares :
    (castlingExampleBoard.move Color.Black "0-0").map (fun bb =>
        (bb.getPieceAt (6, 0), bb.getPieceAt (5, 0), bb.getPieceAt (2, 0), bb.getPieceAt (3, 0)))
      = .ok (some (King Color.Black), some (Rook Color.Black), none, none) ∧
    (castlingExampleBoard.move Color.Black "0-0-0").map (fun bb =>
        (bb.getPieceAt (2, 0), bb.getPieceAt (3, 0), bb.getPieceAt (6, 0), bb.getPieceAt (5, 0)))
      = .ok (some (King Color.Black), some (Rook Color.Black), none, none) :=
  ⟨rfl, rfl⟩

/-- Helper: a `castle` call leaves the receiver exactly as it was. -/
theorem Board.castleCall_fst (b : Board) (color : Color) (kingside : Bool) :
    (b.castleCall color kingside).1 = b := by
  unfold Board.castleCall
  repeat' first
  | rfl
  | split

/-- Helper: a `move` call leaves the receiver exactly as it was. -/
theorem Board.moveCall_fst (b : Board) (color : Color) (moveText : String) :
    (b.moveCall color moveText).1 = b := by
  unfold Board.moveCall
  split
  · rfl
  · exact b.castleCall_fst color _
  · repeat' first
    | rfl
    | split

/-- Claim C8 (confirmed).  `board.move` never changes the receiver: the
receiver state on return — the first component of `moveCall`, threaded
through every raise and return site of the method body — answers `pieceAt`
identically to the pre-call board and keeps the same history, whether the
call returns a new board or fails with any error. -/
theorem c8_move_leaves_receiver_unchanged :
    ∀ (b : Board) (color : Color) (moveText : String) (p : Position),
      (b.moveCall color moveText).1.getPieceAt p = b.getPieceAt p ∧
        (b.moveCall color moveText).1.moves = b.moves := by
  intro b color moveText p
  rw [b.moveCall_fst color moveText]
  exact ⟨rfl, rfl⟩

/-- Helper: a file letter is neither `0` nor `x` nor a piece letter. -/
theorem rankLetters_facts {f : Char} (hf : f ∈ rankLetters) :
    f ≠ '0' ∧ f ≠ 'x' ∧ f ∉ pieceLetters := by
  simp only [rankLetters, List.mem_cons, List.not_mem_nil, or_false] at hf
  rcases hf with rfl | rfl | rfl | rfl | rfl | rfl | rfl | rfl <;>
    exact ⟨by decide, by decide, by decide⟩

/-- Helper: a piece letter is not `0`. -/
theorem pieceLetters_ne_zero {c : Char} (hc : c ∈ pieceLetters) : c ≠ '0' := by
  simp only [pieceLetters, List.mem_cons, List.not_mem_nil, or_false] at hc
  rcases hc with rfl | rfl | rfl | rfl | rfl <;> decide

/-- Helper: inversion of a successful `matchFileDigit`. -/
theorem matchFileDigit_some {cs : List Char} {f d : Char}
    (h : matchFileDigit cs = some (f, d)) :
    f ∈ rankLetters ∧ d ∈ fileDigits ∧ ∃ tail, cs = f :: d :: tail := by
  rcases cs with _ | ⟨a, _ | ⟨e, t⟩⟩
  · simp [matchFileDigit] at h
  · simp [matchFileDigit] at h
  · simp only [matchFileDigit] at h
    split at h
    · rename_i hcond
      rw [Option.some.injEq, Prod.mk.injEq] at h
      obtain ⟨rfl, rfl⟩ := h
      exact ⟨hcond.1, hcond.2, t, rfl⟩
    · exact absurd h (by simp)

/-- Helper: inversion of a successful `matchTail`. -/
theorem matchTail_some {cs : List Char} {f d : Char}
    (h : matchTail cs = some (f, d)) :
    f ∈ rankLetters ∧ d ∈ fileDigits ∧
      ((∃ tail, cs = 'x' :: f :: d :: tail) ∨ ∃ tail, cs = f :: d :: tail) := by
  rcases cs with _ | ⟨c, rest⟩
  · simp [matchTail] at h
  · simp only [matchTail] at h
    split at h
    · rename_i hx
      subst hx
      obtain ⟨hf, hd, tail, htail⟩ := matchFileDigit_some h
      exact ⟨hf, hd, Or.inl ⟨tail, by rw [htail]⟩⟩
    · obtain ⟨hf, hd, tail, htail⟩ := matchFileDigit_some h
      exact ⟨hf, hd, Or.inr ⟨tail, htail⟩⟩

/-- Helper: the matcher accepts every input whose prefix decomposes per the
grammar, producing the piece name and the two character indices. -/
theorem parseMoveAux_grammar {p : Option Char} {capture : Bool} {f d : Char}
    {rest : List Char}
    (hp : ∀ c, p = some c → c ∈ pieceLetters) (hf : f ∈ rankLetters)
    (hd : d ∈ fileDigits) :
    parseMoveAux (grammarString p capture f d rest) =
      .ok (.standard ⟨(p.map (fun c => String.mk [c])).getD "P",
        ((charIndex rankLetters f : Int), (charIndex fileDigits d : Int))⟩) := by
  obtain ⟨hf0, hfx, hfp⟩ := rankLetters_facts hf
  rcases p with _ | c
  · cases capture
    · show parseMoveAux (f :: d :: rest) = _
      simp only [parseMoveAux]
      rw [if_neg hfp]
      simp only [matchTail]
      rw [if_neg hfx]
      simp only [matchFileDigit]
      rw [if_pos ⟨hf, hd⟩]
      rfl
    · show parseMoveAux ('x' :: f :: d :: rest) = _
      simp only [parseMoveAux]
      rw [if_neg (by decide : ('x' ∈ pieceLetters) → False)]
      simp only [matchTail, if_true]
      simp only [matchFileDigit]
      rw [if_pos ⟨hf, hd⟩]
      rfl
  · have hcp := hp c rfl
    cases capture
    · show parseMoveAux (c :: f :: d :: rest) = _
      simp only [parseMoveAux]
      rw [if_pos hcp]
      simp only [matchTail]
      rw [if_neg hfx]
      simp only [matchFileDigit]
      rw [if_pos ⟨hf, hd⟩]
      rfl
    · show parseMoveAux (c :: 'x' :: f :: d :: rest) = _
      simp only [parseMoveAux]
      rw [if_pos hcp]
      simp only [matchTail, if_true]
      simp only [matchFileDigit]
      rw [if_pos ⟨hf, hd⟩]
      rfl

/-- Claim C9 (amended, proved).  `parse_move` maps file letters to 0-7 in
order and rank digits to 0-7 in reverse order, an absent piece letter to
Pawn, and it accepts exactly the castle strings plus every input some prefix
of which matches the grammar — trailing characters after a matching prefix
are ignored, not rejected; every other input fails with `InvalidNotation`. -/
theorem c9_grammar_prefix :
    (∀ (p : Option Char) (capture : Bool) (f d : Char) (rest : List Char),
        (∀ c, p = some c → c ∈ pieceLetters) → f ∈ rankLetters → d ∈ fileDigits →
        parseMove (String.mk (grammarString p capture f d rest)) =
          .ok (.standard ⟨(p.map (fun c => String.mk [c])).getD "P",
            ((charIndex rankLetters f : Int), (charIndex fileDigits d : Int))⟩)) ∧
    (∀ (s : String) (m : MoveIntent), parseMove s = .ok m →
        s = "0-0" ∨ s = "0-0-0" ∨
          ∃ (p : Option Char) (capture : Bool) (f d : Char) (rest : List Char),
            (∀ c, p = some c → c ∈ pieceLetters) ∧ f ∈ rankLetters ∧ d ∈ fileDigits ∧
              s.data = grammarString p capture f d rest) ∧
    "abcdefgh".data.map (charIndex rankLetters) = [0, 1, 2, 3, 4, 5, 6, 7] ∧
    "12345678".data.map (charIndex fileDigits) = [7, 6, 5, 4, 3, 2, 1, 0] := by
  refine ⟨?_, ?_, by decide, by decide⟩
  · intro p capture f d rest hp hf hd
    have hhead : ∃ c0 tail, grammarString p capture f d rest = c0 :: tail ∧ c0 ≠ '0' := by
      rcases p with _ | c
      · cases capture
        · exact ⟨f, d :: rest, rfl, (rankLetters_facts hf).1⟩
        · exact ⟨'x', f :: d :: rest, rfl, by decide⟩
      · cases capture
        · exact ⟨c, f :: d :: rest, rfl, pieceLetters_ne_zero (hp c rfl)⟩
        · exact ⟨c, 'x' :: f :: d :: rest, rfl, pieceLetters_ne_zero (hp c rfl)⟩
    obtain ⟨c0, tail, hgs, hc0⟩ := hhead
    have hne : ¬(String.mk (grammarString p capture f d rest) = "0-0" ∨
        String.mk (grammarString p capture f d rest) = "0-0-0") := by
      rw [hgs]
      rintro (hcontra | hcontra)
      · have h3 : c0 :: tail = ['0', '-', '0'] := congrArg String.data hcontra
        rw [List.cons.injEq] at h3
        exact hc0 h3.1
      · have h3 : c0 :: tail = ['0', '-', '0', '-', '0'] := congrArg String.data hcontra
        rw [List.cons.injEq] at h3
        exact hc0 h3.1
    unfold parseMove
    rw [if_neg hne]
    exact parseMoveAux_grammar hp hf hd
  · intro s m h
    unfold parseMove at h
    split at h
    · rename_i hc
      rcases hc with hc | hc
      · exact Or.inl hc
      · exact Or.inr (Or.inl hc)
    · refine Or.inr (Or.inr ?_)
      rcases hdata : s.data with _ | ⟨c, rest⟩
      · rw [hdata] at h
        simp [parseMoveAux] at h
      · rw [hdata] at h
        simp only [parseMoveAux] at h
        split at h
        · rename_i hcp
          rcases hmt : matchTail rest with _ | ⟨f, d⟩
          · rw [hmt] at h
            simp at h
          · obtain ⟨hf, hd, hsplit⟩ := matchTail_some hmt
            rcases hsplit with ⟨tail, rfl⟩ | ⟨tail, rfl⟩
            · exact ⟨some c, true, f, d, tail,
                fun c2 hc2 => by injection hc2 with h3; subst h3; exact hcp,
                hf, hd, rfl⟩
            · exact ⟨some c, false, f, d, tail,
                fun c2 hc2 => by injection hc2 with h3; subst h3; exact hcp,
                hf, hd, rfl⟩
        · rcases hmt : matchTail (c :: rest) with _ | ⟨f, d⟩
          · rw [hmt] at h
            simp at h
          · obtain ⟨hf, hd, hsplit⟩ := matchTail_some hmt
            rcases hsplit with ⟨tail, heq⟩ | ⟨tail, heq⟩
            · exact ⟨none, true, f, d, tail, fun c2 hc2 => Option.noConfusion hc2,
                hf, hd, by rw [heq]; rfl⟩
            · exact ⟨none, false, f, d, tail, fun c2 hc2 => Option.noConfusion hc2,
                hf, hd, by rw [heq]; rfl⟩

/-- Witness for the amended C9 theorem at a concrete input: the decomposition
`Q`, capture marker, file `e`, digit `4`, trailing `Z` — that is, the input
string `Qxe4Z` — parses as a Queen move to `(4, 4)`. -/
theorem c9_grammar_prefix_witness :
    parseMove (String.mk (grammarString (some 'Q') true 'e' '4' ['Z'])) =
      .ok (.standard ⟨((some 'Q').map (fun c => String.mk [c])).getD "P",
        ((charIndex rankLetters 'e' : Int), (charIndex fileDigits '4' : Int))⟩) :=
  c9_grammar_prefix.1 (some 'Q') true 'e' '4' ['Z']
    (fun c hc => by injection hc with h2; subst h2; decide) (by decide) (by decide)

/-- Claim C9 (counterexample).  `parse_move` accepts `"e4Z"`: `re.match`
anchors the pattern only at the start of the string, so the trailing `Z`
after the valid prefix `e4` is ignored instead of being rejected. -/
theorem c9_trailing_input_accepted :
    parseMove "e4Z" = .ok (.standard ⟨"P", (4, 4)⟩) :=
  rfl

/-- Helper: a lookup hit means `pop` succeeds with that value. -/
theorem dictPop_of_dictGet {l : List (Position × Piece)} {k : Position} {v : Piece}
    (h : dictGet l k = some v) : ∃ rest, dictPop l k = some (v, rest) := by
  induction l with
  | nil => simp [dictGet] at h
  | cons kv tail ih =>
    rcases kv with ⟨k0, v0⟩
    simp only [dictGet] at h
    by_cases hk : k0 = k
    · rw [if_pos hk] at h
      injection h with h2
      subst h2
      exact ⟨tail, by simp [dictPop, hk]⟩
    · rw [if_neg hk] at h
      obtain ⟨rest2, hrest⟩ := ih h
      exact ⟨(k0, v0) :: rest2, by simp [dictPop, hk, hrest]⟩

/-- Helper: insertion under one key leaves lookups of other keys alone. -/
theorem dictGet_dictSet_ne {l : List (Position × Piece)} {k k2 : Position} {v : Piece}
    (h : k2 ≠ k) : dictGet (dictSet l k v) k2 = dictGet l k2 := by
  induction l with
  | nil => simp [dictSet, dictGet, if_neg (Ne.symm h)]
  | cons kv tail ih =>
    rcases kv with ⟨k0, v0⟩
    simp only [dictSet]
    by_cases hk : k0 = k
    · rw [if_pos hk]
      subst hk
      simp only [dictGet]
      rw [if_neg (fun hh => h hh.symm), if_neg (fun hh => h hh.symm)]
    · rw [if_neg hk]
      simp only [dictGet]
      by_cases h02 : k0 = k2
      · rw [if_pos h02, if_pos h02]
      · rw [if_neg h02, if_neg h02]
        exact ih

/-- Helper: popping one key leaves lookups of other keys alone. -/
theorem dictGet_dictPop_ne {l : List (Position × Piece)} {k k2 : Position} {v : Piece}
    {rest : List (Position × Piece)}
    (hpop : dictPop l k = some (v, rest)) (h : k2 ≠ k) :
    dictGet rest k2 = dictGet l k2 := by
  induction l generalizing rest with
  | nil => simp [dictPop] at hpop
  | cons kv tail ih =>
    rcases kv with ⟨k0, v0⟩
    simp only [dictPop] at hpop
    by_cases hk : k0 = k
    · rw [if_pos hk] at hpop
      injection hpop with hp2
      rw [Prod.mk.injEq] at hp2
      obtain ⟨rfl, rfl⟩ := hp2
      subst hk
      simp only [dictGet]
      rw [if_neg (Ne.symm h)]
    · rw [if_neg hk] at hpop
      rcases hrec : dictPop tail k with _ | pr
      · rw [hrec] at hpop
        exact absurd hpop (by simp)
      · rw [hrec] at hpop
        rcases pr with ⟨v2, rest2⟩
        injection hpop with hp2
        rw [Prod.mk.injEq] at hp2
        obtain ⟨rfl, rfl⟩ := hp2
        simp only [dictGet]
        by_cases h02 : k0 = k2
        · rw [if_pos h02, if_pos h02]
        · rw [if_neg h02, if_neg h02]
          exact ih hrec

/-- Helper: the history loop can only raise `AttributeError`. -/
theorem historyDisqualifies_error {ms : List (Color × MoveIntent)} {rookPos : Position}
    {e : PyError} (h : historyDisqualifies ms rookPos = .error e) : e = .attributeError := by
  induction ms with
  | nil => simp [historyDisqualifies] at h
  | cons entry rest ih =>
    rcases entry with ⟨c, mi⟩
    rcases mi with mv | ks
    · simp only [historyDisqualifies] at h
      split at h
      · simp at h
      · split at h
        · simp at h
        · exact ih h
    · simp only [historyDisqualifies] at h
      injection h with h2
      exact h2.symm

/-- Helper: `can_castle` can only raise `AttributeError`. -/
theorem canCastle_error {b : Board} {color : Color} {kingside : Bool} {e : PyError}
    (h : b.canCastle color kingside = .error e) : e = .attributeError := by
  simp only [Board.canCastle] at h
  split at h
  · simp at h
  · split at h
    · simp at h
    · split at h
      · simp at h
      · split at h
        · rename_i heq
          injection h with h2
          subst h2
          exact historyDisqualifies_error heq
        · simp at h
        · simp at h

/-- Helper: when `can_castle` answers true, the original corner really holds
the piece the equality test demands. -/
theorem canCastle_ok_rook {b : Board} {color : Color} {kingside : Bool}
    (hcc : b.canCastle color kingside = .ok true) :
    b.getPieceAt (originalRookPosition kingside (castleRank color)) =
      some (Rook Color.Black) := by
  simp only [Board.canCastle] at hcc
  split at hcc
  · simp at hcc
  · split at hcc
    · simp at hcc
    · split at hcc
      · simp at hcc
      · rename_i hrook
        rw [not_not] at hrook
        exact hrook

/-- Helper: the result of a `castle` call once `can_castle` has answered
true, written as the two pops and inserts it performs. -/
theorem castleCall_eq {b : Board} {color : Color} {kingside : Bool}
    (hcc : b.canCastle color kingside = .ok true) :
    (b.castleCall color kingside).2 =
      match (Board.movePieceCall b.pieces (4, castleRank color)
          (if kingside then 6 else 2, castleRank color)).2 with
      | none => .error .keyError
      | some pieces1 =>
        match (Board.movePieceCall pieces1
            (originalRookPosition kingside (castleRank color))
            (if kingside then 5 else 3, castleRank color)).2 with
        | none => .error .keyError
        | some pieces2 => .ok ⟨pieces2, b.moves ++ [(color, .castle kingside)]⟩ := by
  unfold Board.castleCall
  rw [hcc]
  rcases hx : (Board.movePieceCall b.pieces (4, castleRank color)
      (if kingside then 6 else 2, castleRank color)).2 with _ | p1
  · simp only [hx]
  · simp only [hx]
    rcases hx2 : (Board.movePieceCall p1
        (originalRookPosition kingside (castleRank color))
        (if kingside then 5 else 3, castleRank color)).2 with _ | p2
    · simp only [hx2]
    · simp only [hx2]

/-- Helper: when `can_castle` answers true and the king square is occupied,
both pops succeed and `castle` returns a board. -/
theorem castle_ok_of_king {b : Board} {color : Color} {kingside : Bool}
    (hcc : b.canCastle color kingside = .ok true)
    (hking : b.getPieceAt (4, castleRank color) ≠ none) :
    ∃ b2, b.castle color kingside = .ok b2 := by
  have hrook := canCastle_ok_rook hcc
  rcases hv : b.getPieceAt (4, castleRank color) with _ | v
  · exact absurd hv hking
  · obtain ⟨rest, hpop⟩ := dictPop_of_dictGet hv
    have h1 : (Board.movePieceCall b.pieces (4, castleRank color)
        (if kingside then 6 else 2, castleRank color)).2 =
        some (dictSet rest (if kingside then 6 else 2, castleRank color) v) := by
      unfold Board.movePieceCall
      rw [hpop]
    have hne1 : originalRookPosition kingside (castleRank color) ≠
        ((if kingside then 6 else 2 : Int), castleRank color) := by
      rw [show castleRank color = (0 : Int) from rfl]
      cases kingside <;> decide
    have hne2 : originalRookPosition kingside (castleRank color) ≠
        ((4 : Int), castleRank color) := by
      rw [show castleRank color = (0 : Int) from rfl]
      cases kingside <;> decide
    have h2 : dictGet (dictSet rest (if kingside then 6 else 2, castleRank color) v)
        (originalRookPosition kingside (castleRank color)) = some (Rook Color.Black) := by
      rw [dictGet_dictSet_ne hne1, dictGet_dictPop_ne hpop hne2]
      exact hrook
    obtain ⟨rest2, hpop2⟩ := dictPop_of_dictGet h2
    have h3 : (Board.movePieceCall
        (dictSet rest (if kingside then 6 else 2, castleRank color) v)
        (originalRookPosition kingside (castleRank color))
        (if kingside then 5 else 3, castleRank color)).2 =
        some (dictSet rest2 (if kingside then 5 else 3, castleRank color)
          (Rook Color.Black)) := by
      unfold Board.movePieceCall
      rw [hpop2]
    refine ⟨⟨dictSet rest2 (if kingside then 5 else 3, castleRank color) (Rook Color.Black),
      b.moves ++ [(color, .castle kingside)]⟩, ?_⟩
    show (b.castleCall color kingside).2 = _
    rw [castleCall_eq hcc]
    simp only [h1, h3]

/-- Helper: the errors a `castle` call can produce. -/
theorem castleCall_error {b : Board} {color : Color} {kingside : Bool} {e : PyError}
    (he : (b.castleCall color kingside).2 = .error e) :
    e = .cantCastle ∨ e = .keyError ∨ e = .attributeError := by
  rcases hcc : b.canCastle color kingside with e2 | bb
  · unfold Board.castleCall at he
    rw [hcc] at he
    have h2 : (Except.error e2 : Except PyError Board) = .error e := he
    injection h2 with h3
    subst h3
    exact Or.inr (Or.inr (canCastle_error hcc))
  · cases bb
    · unfold Board.castleCall at he
      rw [hcc] at he
      have h2 : (Except.error PyError.cantCastle : Except PyError Board) = .error e := he
      injection h2 with h3
      exact Or.inl h3.symm
    · rw [castleCall_eq hcc] at he
      rcases hp1 : (Board.movePieceCall b.pieces (4, castleRank color)
          (if kingside then 6 else 2, castleRank color)).2 with _ | p1
      · rw [hp1] at he
        have h2 : (Except.error PyError.keyError : Except PyError Board) = .error e := he
        injection h2 with h3
        exact Or.inr (Or.inl h3.symm)
      · rw [hp1] at he
        dsimp only at he
        rcases hp2 : (Board.movePieceCall p1
            (originalRookPosition kingside (castleRank color))
            (if kingside then 5 else 3, castleRank color)).2 with _ | p2
        · rw [hp2] at he
          have h2 : (Except.error PyError.keyError : Except PyError Board) = .error e := he
          injection h2 with h3
          exact Or.inr (Or.inl h3.symm)
        · rw [hp2] at he
          have h2 : (Except.ok (⟨p2, b.moves ++ [(color, .castle kingside)]⟩ : Board) :
              Except PyError Board) = .error e := he
          exact Except.noConfusion h2

/-- Claim C10 (amended, proved).  When `canCastle` answers true the original
rook corner is occupied, but the king square `(4, rank)` need not be; when it
is also occupied, `castle` totally produces a new board, and a Castle-intent
move can fail only with `IllegalCastle`, a `KeyError` (empty king square) or
an `AttributeError` (a `Castle` record already in the history). -/
theorem c10_castle_totality :
    ∀ (b : Board) (color : Color) (kingside : Bool),
      (b.canCastle color kingside = .ok true →
        b.getPieceAt (originalRookPosition kingside (castleRank color)) ≠ none ∧
          (b.getPieceAt (4, castleRank color) ≠ none →
            ∃ b2, b.castle color kingside = .ok b2)) ∧
      (∀ e, b.castle color kingside = .error e →
        e = .cantCastle ∨ e = .keyError ∨ e = .attributeError) := by
  intro b color kingside
  constructor
  · intro hcc
    refine ⟨?_, fun hking => castle_ok_of_king hcc hking⟩
    rw [canCastle_ok_rook hcc]
    simp
  · intro e he
    exact castleCall_error he

/-- Witness for the amended C10 theorem at a concrete input: on
`blackCastleBoard` the kingside corner is occupied and the castle succeeds. -/
theorem c10_castle_totality_witness :
    blackCastleBoard.getPieceAt (originalRookPosition true (castleRank Color.Black)) ≠ none ∧
      ∃ b2, blackCastleBoard.castle Color.Black true = .ok b2 :=
  ⟨((c10_castle_totality blackCastleBoard Color.Black true).1 (by rfl)).1,
   ((c10_castle_totality blackCastleBoard Color.Black true).1 (by rfl)).2 (by decide)⟩

/-- Claim C10 (counterexample).  On a board holding only the corner rook,
`canCastle(Black, kingside)` is true although square `(4, 0)` is empty, and
the Castle-intent move then fails with a `KeyError` from `dict.pop` — an
error other than `IllegalCastle`. -/
theorem c10_castle_keyerror_missing_king :
    kinglessBoard.canCastle Color.Black true = .ok true ∧
      kinglessBoard.getPieceAt (4, castleRank Color.Black) = none ∧
      kinglessBoard.castle Color.Black true = .error .keyError :=
  ⟨rfl, rfl, rfl⟩

end Chess
